/-
Verification of the IfcModelChecker export/validation engines.

The TypeScript sources (src/services/ifcExport.ts, the validation core,
the zustand model store, and the IDS converter) are shallowly embedded
below.  JavaScript strings are modelled as `List Char`; `String.indexOf`
as `firstOcc`/`idxFrom` (first occurrence, optionally from a start
index); `String.substring` as `substringJS`; `String.replace` with a
string pattern as `replaceFirst` (literal first-occurrence replacement;
the rarely used `$`-escapes of the replacement string are not modelled).
JavaScript numbers are modelled as rationals (every finite double is a
rational; NaN/Infinity are outside the embedding's domain).
-/
import Mathlib

set_option maxHeartbeats 1600000

/-- Shorthand: characters of a string literal. -/
def toL (s : String) : List Char := s.toList

/-- The single-quote character (U+0027), used by STEP string literals. -/
def quoteChar : Char := Char.ofNat 39

/-- JS `\s` (the whitespace characters relevant to the embedded code). -/
def isWs (c : Char) : Bool :=
  c.toNat = 32 || c.toNat = 9 || c.toNat = 10 || c.toNat = 11 ||
  c.toNat = 12 || c.toNat = 13 || c.toNat = 160

/-- `occurs pat s i`: the pattern `pat` occurs in `s` at index `i`. -/
def occurs (pat s : List Char) (i : Nat) : Prop :=
  (s.drop i).take pat.length = pat

instance (pat s : List Char) (i : Nat) : Decidable (occurs pat s i) := by
  unfold occurs; infer_instance

/-- JS `String.prototype.indexOf(pat)`: index of the first occurrence of
`pat` in `s`, `none` when absent (`-1` in JS). -/
def firstOcc (pat : List Char) : List Char → Option Nat
  | [] => if pat = [] then some 0 else none
  | c :: t =>
    if ((c :: t).take pat.length) = pat then some 0
    else (firstOcc pat t).map (· + 1)

/-- JS `String.prototype.indexOf(pat, start)`: first occurrence at an
index `≥ start`. -/
def idxFrom (pat s : List Char) (start : Nat) : Option Nat :=
  (firstOcc pat (s.drop start)).map (· + start)

/-- JS `String.prototype.substring(a, b)` (for `a ≤ b`). -/
def substringJS (s : List Char) (a b : Nat) : List Char :=
  (s.drop a).take (b - a)

/-- JS `String.prototype.replace(pat, rep)` with a string pattern:
replace the first occurrence of `pat` by `rep` (no occurrence: return
`s` unchanged; empty pattern: prepend, as in JS). -/
def replaceFirst (s pat rep : List Char) : List Char :=
  match firstOcc pat s with
  | none => s
  | some i => s.take i ++ rep ++ s.drop (i + pat.length)

/-- A decimal digit character. -/
def digitChar : Nat → Char
  | 0 => '0' | 1 => '1' | 2 => '2' | 3 => '3' | 4 => '4'
  | 5 => '5' | 6 => '6' | 7 => '7' | 8 => '8' | 9 => '9'
  | _ => '0'

/-- Decimal digits, fuel-based so that the kernel can evaluate it. -/
def strNatAux : Nat → Nat → List Char
  | 0, _ => []
  | fuel + 1, n =>
    if n < 10 then [digitChar n]
    else strNatAux fuel (n / 10) ++ [digitChar (n % 10)]

/-- Decimal digits of a natural number (JS `String(n)` for integers). -/
def strNat (n : Nat) : List Char := strNatAux (n + 1) n

/-- Value of a digit string (for relating `strNat` back to numbers). -/
def valNat (l : List Char) : Nat :=
  l.foldl (fun a c => 10 * a + (c.toNat - 48)) 0

/- ===== Export engine (src/services/ifcExport.ts) ===== -/

/-- A dynamic property value: TS `string | number | boolean | null`. -/
inductive PropertyValue where
  | str (s : List Char)
  | num (q : ℚ)
  | bool (b : Bool)
  | null
deriving DecidableEq, Repr

/-- Left-pad a digit string with `'0'` to length `n`. -/
def padZeros (l : List Char) (n : Nat) : List Char :=
  List.replicate (n - l.length) '0' ++ l

/-- JS `x.toFixed(6)`: fixed-point rendering with 6 fractional digits.
ECMA extracts the sign, then picks the integer `n` closest to
`|x| * 10^6` (the larger `n` on ties), i.e. `n = ⌊|x|*10^6 + 1/2⌋`,
computed here in integer arithmetic as
`(2*|num|*10^6 + den) / (2*den)`. -/
def toFixed6 (q : ℚ) : List Char :=
  let n : Nat := (2 * q.num.natAbs * 1000000 + q.den) / (2 * q.den)
  (if q < 0 then ['-'] else []) ++
    strNat (n / 1000000) ++ '.' :: padZeros (strNat (n % 1000000)) 6

/-- JS `.replace(/0+$/, '')`: strip all trailing `'0'` characters. -/
def trimTrailingZeros (l : List Char) : List Char :=
  (l.reverse.dropWhile (fun c => c = '0')).reverse

/-- JS `.replace(/\.$/, '.0')`: restore one digit after a bare dot. -/
def fixTrailingDot (l : List Char) : List Char :=
  if l.getLast? = some '.' then l ++ ['0'] else l

/-- ECMA exponential rendering of an integral magnitude (used by
`String()` once the decimal point would sit past position 21): the
significant digits are the decimal digits with trailing zeros removed,
shown as `d.dd...e+<n-1>` where `n` is the digit count, e.g.
`10^21 ↦ "1e+21"`. -/
def intExpStr (n : Nat) : List Char :=
  let ds := strNat n
  match trimTrailingZeros ds with
  | [] => []
  | d :: rest =>
    d :: (if rest = [] then [] else '.' :: rest) ++
      'e' :: '+' :: strNat (ds.length - 1)

/-- JS `String(i)` for an integral number.  ECMA renders magnitudes
below `10^21` positionally (sign plus the decimal digits); from
`10^21` on it switches to exponential notation (`String(1e21)` is
`"1e+21"`).  Digit strings are the exact decimal digits; the
shortest-round-trip digit selection of binary doubles is not
modelled. -/
def intStr (i : Int) : List Char :=
  (if i < 0 then ['-'] else []) ++
    (if i.natAbs < 10 ^ 21 then strNat i.natAbs else intExpStr i.natAbs)

/-- `'` → `''` (STEP escaping), JS `.replace(/'/g, "''")`. -/
def escapeQuote (s : List Char) : List Char :=
  s.flatMap (fun c => if c = quoteChar then [c, c] else [c])

/-- `formatIfcValue` from ifcExport.ts: typed value → STEP literal. -/
def formatIfcValue : PropertyValue → List Char
  | .null => toL "$"
  | .bool b => if b then toL ".T." else toL ".F."
  | .num q =>
    if q.den = 1 then intStr q.num
    else fixTrailingDot (trimTrailingZeros (toFixed6 q))
  | .str s => quoteChar :: escapeQuote s ++ [quoteChar]

/-- A property of a property set (fields used by the export engine). -/
structure Property where
  name : List Char
  expressID : Nat
  value : PropertyValue
  originalValue : PropertyValue
  modified : Bool
deriving DecidableEq, Repr

/-- A property set attached to an element. -/
structure PropertySet where
  name : List Char
  expressID : Nat
  isEditable : Bool
  properties : List Property
deriving DecidableEq, Repr

/-- An IFC element (fields used by the export engine and store). -/
structure IfcElement where
  expressID : Nat
  psets : List PropertySet
deriving DecidableEq, Repr

/-- `PatchEntry` from ifcExport.ts. -/
structure PatchEntry where
  expressID : Nat
  propertyName : List Char
  psetName : List Char
  oldValue : List Char
  newValue : List Char
deriving DecidableEq, Repr

/-- `collectModifiedProperties`: one patch per modified property of an
editable property set whose value differs from its original value. -/
def collectModifiedProperties (elements : List IfcElement) : List PatchEntry :=
  elements.flatMap (fun el =>
    el.psets.flatMap (fun ps =>
      if ps.isEditable = true then
        ps.properties.filterMap (fun p =>
          if p.modified = true ∧ p.value ≠ p.originalValue then
            some { expressID := p.expressID, propertyName := p.name,
                   psetName := ps.name,
                   oldValue := formatIfcValue p.originalValue,
                   newValue := formatIfcValue p.value }
          else none)
      else []))

/-- The search key `"#<expressID>="` used to locate a STEP record line. -/
def idString (n : Nat) : List Char := '#' :: strNat n ++ ['=']

/-- One iteration of the `tryPatchExport` loop: locate the record line,
fail on the four conditions, else splice the replaced line back in. -/
def tryPatchStep (result : List Char) (patch : PatchEntry) : Option (List Char) :=
  match firstOcc (idString patch.expressID) result with
  | none => none
  | some lineStart =>
    match idxFrom [';'] result lineStart with
    | none => none
    | some lineEnd =>
      let originalLine := substringJS result lineStart (lineEnd + 1)
      if patch.oldValue = toL "$" then none
      else
        match firstOcc patch.oldValue originalLine with
        | none => none
        | some oldIdx =>
          let newLine := originalLine.take oldIdx ++ patch.newValue ++
            originalLine.drop (oldIdx + patch.oldValue.length)
          some (result.take lineStart ++ newLine ++ result.drop (lineEnd + 1))

/-- `tryPatchExport` from ifcExport.ts: sequential patching with
failure propagation (`null` → `none`). -/
def tryPatchExport (originalText : List Char) (patches : List PatchEntry) :
    Option (List Char) :=
  patches.foldlM tryPatchStep originalText

/-- The `"HEADER;"` token. -/
def hdrTok : List Char := toL "HEADER;"

/-- The `"ENDSEC;"` token. -/
def endsecTok : List Char := toL "ENDSEC;"

/-- `extractHeaderSection`: the substring from the first `HEADER;`
through the first following `ENDSEC;` inclusive, `''` when absent. -/
def extractHeaderSection (text : List Char) : List Char :=
  match firstOcc hdrTok text with
  | none => []
  | some headerStart =>
    match idxFrom endsecTok text headerStart with
    | none => []
    | some headerEnd => substringJS text headerStart (headerEnd + 7)

/-- Case-insensitive character comparison (the `/i` regex flag). -/
def ciEq (a b : Char) : Bool := a.toUpper = b.toUpper

/-- Strip a literal pattern case-insensitively, returning the rest. -/
def stripCI : List Char → List Char → Option (List Char)
  | [], s => some s
  | _ :: _, [] => none
  | p :: ps, c :: cs => if ciEq p c then stripCI ps cs else none

/-- Tail matcher for group 3 of the `rebuildPropertyLine` regex,
`\s*(?:,[^)]*)?;?\s*$` (must consume the whole remainder). -/
def matchGroup3 (t : List Char) : Bool :=
  match t.dropWhile isWs with
  | [] => true
  | ',' :: rest => rest.all (fun c => !(c = ')'))
  | ';' :: rest => rest.all isWs
  | _ => false

/-- Try the optional `(?:\([^)]*\))?` of group 2 (taken), then group 3. -/
def tryOptionParen (v1 restA : List Char) : Option (List Char × List Char) :=
  match restA with
  | '(' :: restB =>
    let inner := restB.takeWhile (fun c => !(c = ')'))
    match restB.drop inner.length with
    | ')' :: restC =>
      if matchGroup3 restC then some (v1 ++ '(' :: inner ++ [')'], restC)
      else none
    | _ => none
  | _ => none

/-- Backtracking over the greedy `[^,)]+` of group 2 (longest first; the
optional paren group is preferred taken, matching JS priority). -/
def findValueSplit (rest12 : List Char) : Nat → Option (List Char × List Char)
  | 0 => none
  | Nat.succ l =>
    let v1 := rest12.take (l + 1)
    let restA := rest12.drop (l + 1)
    match tryOptionParen v1 restA with
    | some r => some r
    | none =>
      if matchGroup3 restA then some (v1, restA)
      else findValueSplit rest12 l

/-- The anchored case-insensitive regex of `rebuildPropertyLine`,
`^(#\d+=\s*IFCPROPERTYSINGLEVALUE\s*\([^,]+,[^,]*,\s*)`
`([^,)]+(?:\([^)]*\))?)(\s*(?:,[^)]*)?;?\s*)$`, implemented as a
deterministic matcher with the same greedy/backtracking priority.
Returns the three capture groups. -/
def matchPropertyLine (line : List Char) : Option (List Char × List Char × List Char) :=
  match line with
  | '#' :: rest1 =>
    let digits := rest1.takeWhile Char.isDigit
    if digits.isEmpty then none
    else
      match rest1.drop digits.length with
      | '=' :: rest3 =>
        match stripCI (toL "IFCPROPERTYSINGLEVALUE") (rest3.dropWhile isWs) with
        | none => none
        | some rest5 =>
          match rest5.dropWhile isWs with
          | '(' :: rest7 =>
            let f1 := rest7.takeWhile (fun c => !(c = ','))
            if f1.isEmpty then none
            else
              match rest7.drop f1.length with
              | ',' :: rest9 =>
                let f2 := rest9.takeWhile (fun c => !(c = ','))
                match rest9.drop f2.length with
                | ',' :: rest11 =>
                  let rest12 := rest11.dropWhile isWs
                  let r := rest12.takeWhile (fun c => !(c = ',') && !(c = ')'))
                  match findValueSplit rest12 r.length with
                  | none => none
                  | some (g2, g3) =>
                    some (line.take (line.length - rest12.length), g2, g3)
                | _ => none
              | _ => none
          | _ => none
      | _ => none
  | _ => none

/-- The JS regex `/^-?\d+(\.\d+)?$/` used to sniff numeric literals. -/
def isNumericLit (v : List Char) : Bool :=
  let v1 := match v with | '-' :: t => t | _ => v
  let ds := v1.takeWhile Char.isDigit
  if ds.isEmpty then false
  else
    match v1.drop ds.length with
    | [] => true
    | '.' :: t =>
      let ds2 := t.takeWhile Char.isDigit
      !ds2.isEmpty && (t.drop ds2.length).isEmpty
    | _ => false

/-- The IFC type-constructor wrapping of `rebuildPropertyLine`. -/
def wrapValue (newValue : List Char) : List Char :=
  if newValue = toL "$" then newValue
  else if newValue = toL ".T." ∨ newValue = toL ".F." then
    toL "IFCBOOLEAN(" ++ newValue ++ [')']
  else if isNumericLit newValue then
    toL "IFCREAL(" ++ newValue ++ [')']
  else if newValue.head? = some quoteChar ∧ newValue.getLast? = some quoteChar then
    toL "IFCLABEL(" ++ newValue ++ [')']
  else newValue

/-- `rebuildPropertyLine` from ifcExport.ts. -/
def rebuildPropertyLine (line newValue : List Char) : Option (List Char) :=
  match matchPropertyLine line with
  | none => none
  | some (g1, _, g3) => some (g1 ++ wrapValue newValue ++ g3)

/-- One iteration of the `rewriteExport` loop (failures skip, JS
`continue`). -/
def rewriteStep (result : List Char) (patch : PatchEntry) : List Char :=
  match firstOcc (idString patch.expressID) result with
  | none => result
  | some lineStart =>
    match idxFrom [';'] result lineStart with
    | none => result
    | some lineEnd =>
      let originalLine := substringJS result lineStart (lineEnd + 1)
      match rebuildPropertyLine originalLine patch.newValue with
      | none => result
      | some newLine =>
        result.take lineStart ++ newLine ++ result.drop (lineEnd + 1)

/-- `rewriteExport` from ifcExport.ts: apply the rewrite loop, then
restore the captured original header section when it changed. -/
def rewriteExport (originalText : List Char) (patches : List PatchEntry) : List Char :=
  let headerSection := extractHeaderSection originalText
  let result := patches.foldl rewriteStep originalText
  let newHeaderSection := extractHeaderSection result
  if newHeaderSection = headerSection then result
  else replaceFirst result newHeaderSection headerSection

/-- The slice of the model store consumed by `exportModifiedIfc`. -/
structure ModelState where
  originalIfcText : Option (List Char)
  elements : List IfcElement
deriving DecidableEq, Repr

/-- `exportModifiedIfc` from ifcExport.ts.  The returned blob's text is
the `Except.ok` payload; the thrown error is `Except.error`.  The JS
guard `if (!originalIfcText)` is falsy for both `null` and the empty
string, and the patch result `''` is likewise falsy in `if (!result)`. -/
def exportModifiedIfc (st : ModelState) (forceRewrite : Bool) :
    Except (List Char) (List Char) :=
  match st.originalIfcText with
  | none => .error (toL "No original IFC text available for export")
  | some t =>
    if t = [] then .error (toL "No original IFC text available for export")
    else
      let patches := collectModifiedProperties st.elements
      if patches.length = 0 then .ok t
      else
        match (if forceRewrite then none else tryPatchExport t patches) with
        | some result =>
          if result = [] then .ok (rewriteExport t patches) else .ok result
        | none => .ok (rewriteExport t patches)

/- ===== Model store (updatePropertyValue, src/store — the zustand
   slice bundled with ifcParser.worker.ts) ===== -/

/-- Update the first list entry satisfying `p` (immer mutates only the
object returned by `Array.prototype.find`). -/
def updateFirst (p : α → Bool) (f : α → α) : List α → List α
  | [] => []
  | x :: xs => if p x then f x :: xs else x :: updateFirst p f xs

/-- The mutation applied to the found property: `prop.value = value;
prop.modified = true`. -/
def setPropValue (v : PropertyValue) (p : Property) : Property :=
  { p with value := v, modified := true }

/-- Update the first property with the given name in a property set. -/
def updatePsetProp (propertyName : List Char) (v : PropertyValue)
    (ps : PropertySet) : PropertySet :=
  { ps with
    properties := updateFirst (fun p => p.name = propertyName)
      (setPropValue v) ps.properties }

/-- Update the first property set with the given name in an element. -/
def updateElementPset (psetName propertyName : List Char) (v : PropertyValue)
    (el : IfcElement) : IfcElement :=
  { el with
    psets := updateFirst (fun ps => ps.name = psetName)
      (updatePsetProp propertyName v) el.psets }

/-- `updatePropertyValue` from the model store.  The store's
`Map<number, IfcElement>` is modelled as an association list keyed by
`expressID`; a missing element, property set, or property leaves the
state unchanged (the early `return`s). -/
def updatePropertyValue (elements : List (Nat × IfcElement)) (elementID : Nat)
    (psetName propertyName : List Char) (v : PropertyValue) :
    List (Nat × IfcElement) :=
  updateFirst (fun e => e.1 = elementID)
    (fun e => (e.1, updateElementPset psetName propertyName v e.2)) elements

/- ===== Validation engine (validationCore / ifcLoader.ts worker) ===== -/

/-- TS `IssueSeverity = 'Error' | 'Warning'`. -/
inductive IssueSeverity where
  | Error
  | Warning
deriving DecidableEq, Repr

/-- TS `IssueType`. -/
inductive IssueType where
  | MissingParam
  | MissingValue
  | WrongValue
  | Naming
deriving DecidableEq, Repr

/-- A validation issue (all fields of the TS `ValidationIssue`). -/
structure ValidationIssue where
  id : List Char
  discipline : List Char
  elementId : List Char
  globalId : List Char
  expressID : Nat
  ifcClass : List Char
  name : List Char
  level : List Char
  zone : List Char
  ruleId : List Char
  ruleName : List Char
  issueType : IssueType
  propertyPath : List Char
  expected : List Char
  actual : List Char
  severity : IssueSeverity
  suggestedFix : Option (List Char) := none
deriving DecidableEq, Repr

/-- A property as seen by the validation worker (`type` → `vtype`). -/
structure VProp where
  name : List Char
  value : PropertyValue
  vtype : List Char
deriving DecidableEq, Repr

/-- A property set as seen by the validation worker. -/
structure VPset where
  name : List Char
  properties : List VProp
deriving DecidableEq, Repr

/-- TS `ValidateElement`. -/
structure ValidateElement where
  expressID : Nat
  globalId : List Char
  name : List Char
  tag : List Char
  ifcClass : List Char
  level : List Char
  zone : List Char
  discipline : List Char
  psets : List VPset
deriving DecidableEq, Repr

/-- The closed set of check types (names prefixed `ck` for Lean). -/
inductive CheckType where
  | ckExists
  | ckNotEmpty
  | ckEquals
  | ckInList
  | ckRange
  | ckRegex
  | ckBoolean
deriving DecidableEq, Repr

/-- TS `expected?: any` as consumed by `equals`/`inList`: absent
(`undefined`), a scalar, or an array. -/
inductive ExpectedParam where
  | undef
  | val (v : PropertyValue)
  | arr (l : List PropertyValue)
deriving DecidableEq, Repr

/-- A rule requirement (TS `RuleRequirement`). -/
structure RuleRequirement where
  psetName : List Char
  propertyName : List Char
  checkType : CheckType
  expected : ExpectedParam := .undef
  min : Option ℚ := none
  max : Option ℚ := none
  pattern : Option (List Char) := none
  severity : Option IssueSeverity := none
deriving DecidableEq, Repr

/-- A rule's applicability filter. -/
structure RuleApplicability where
  ifcClasses : Option (List (List Char)) := none
  disciplines : Option (List (List Char)) := none
deriving DecidableEq, Repr

/-- TS `ValidateRule`. -/
structure ValidateRule where
  id : List Char
  name : List Char
  description : List Char := []
  applicability : RuleApplicability := {}
  requirements : List RuleRequirement
deriving DecidableEq, Repr

/-- `getElementId`: `el.tag || el.name || el.globalId` (JS `||`, the
empty string is falsy). -/
def getElementId (el : ValidateElement) : List Char :=
  if el.tag ≠ [] then el.tag
  else if el.name ≠ [] then el.name
  else el.globalId

/-- `getDefaultSeverity` from the validation core. -/
def getDefaultSeverity : IssueType → IssueSeverity
  | .MissingValue => .Warning
  | .Naming => .Error
  | .MissingParam => .Error
  | .WrongValue => .Error

/-- JS `String(q)` for a number.  Exact for integers; for non-integral
numbers JS prints the shortest round-trip decimal of the double — here
approximated by the 6-digit fixed-point rendering.  (Only used to build
the human-readable `expected`/`actual` strings of issues, which no
claim constrains.) -/
def jsStringOfNum (q : ℚ) : List Char :=
  if q.den = 1 then intStr q.num
  else fixTrailingDot (trimTrailingZeros (toFixed6 q))

/-- JS `String(v)` for a property value. -/
def jsStringOfValue : PropertyValue → List Char
  | .str s => s
  | .num q => jsStringOfNum q
  | .bool b => if b then toL "true" else toL "false"
  | .null => toL "null"

/-- `String(value ?? '(empty)')` (the `actual` field of issues). -/
def displayActual : PropertyValue → List Char
  | .null => toL "(empty)"
  | v => jsStringOfValue v

/-- `String(req.expected)` for the `equals` issue text. -/
def displayExpected : ExpectedParam → List Char
  | .undef => toL "undefined"
  | .val v => jsStringOfValue v
  | .arr l => List.intercalate [','] (l.map jsStringOfValue)

/-- `Array.isArray(req.expected) ? req.expected : [req.expected]`; a
`none` entry is JS `undefined` (which never equals a property value). -/
def expectedAsList : ExpectedParam → List (Option PropertyValue)
  | .undef => [none]
  | .val v => [some v]
  | .arr l => l.map some

/-- One item of `list.join(', ')` (`null`/`undefined` join as `''`). -/
def joinItem : Option PropertyValue → List Char
  | none => []
  | some .null => []
  | some v => jsStringOfValue v

/-- `list.join(', ')`. -/
def joinExpectedList (l : List (Option PropertyValue)) : List Char :=
  List.intercalate (toL ", ") (l.map joinItem)

/-- JS strict equality `value === req.expected` (an array or absent
`expected` is never strictly equal to a primitive value). -/
def strictEqExpected (v : PropertyValue) : ExpectedParam → Prop
  | .undef => False
  | .val w => v = w
  | .arr _ => False

instance (v : PropertyValue) (e : ExpectedParam) :
    Decidable (strictEqExpected v e) := by
  unfold strictEqExpected; cases e <;> infer_instance

/-- JS `Number(value)` (`none` = `NaN`).  String coercion models the
decimal-literal forms; exotic forms (exponent, hex) are out of scope. -/
def parseJsNumber (s : List Char) : Option ℚ :=
  let t := ((s.dropWhile isWs).reverse.dropWhile isWs).reverse
  if t = [] then some 0
  else
    let neg : Bool := t.head? = some '-'
    let t1 := match t with | '-' :: r => r | '+' :: r => r | _ => t
    let ds := t1.takeWhile Char.isDigit
    match t1.drop ds.length with
    | [] =>
      if ds.isEmpty then none
      else some (mkRat (if neg then -(valNat ds : Int) else (valNat ds : Int)) 1)
    | '.' :: fr =>
      let fs := fr.takeWhile Char.isDigit
      if (fr.drop fs.length).isEmpty ∧ ¬(ds.isEmpty ∧ fs.isEmpty) then
        some (mkRat
          ((if neg then -1 else 1) *
            ((valNat ds : Int) * (10 ^ fs.length : Int) + (valNat fs : Int)))
          (10 ^ fs.length))
      else none
    | _ => none

/-- JS `Number(value)` over all property-value shapes. -/
def jsToNumber : PropertyValue → Option ℚ
  | .num q => some q
  | .bool b => some (if b then 1 else 0)
  | .null => some 0
  | .str s => parseJsNumber s

/-- `String(value ?? '')`: the argument handed to `re.test`. -/
def regexArg : PropertyValue → List Char
  | .null => []
  | v => jsStringOfValue v

/-- The JS regex engine, abstracted: `new RegExp(pattern)` either
throws (`none`, the caught invalid-pattern case) or yields a `test`
function.  All theorems below hold for every such engine. -/
def RegexCompile : Type := List Char → Option (List Char → Bool)

/-- Build one issue (the fields every `issues.push` in `checkElement`
has in common; severity is `req.severity || getDefaultSeverity(it)`). -/
def mkIssue (el : ValidateElement) (rule : ValidateRule) (req : RuleRequirement)
    (it : IssueType) (expected actual : List Char)
    (fix : Option (List Char)) : ValidationIssue :=
  { id := strNat el.expressID ++ toL "-" ++ rule.id ++ toL "-" ++ req.propertyName
  , discipline := el.discipline
  , elementId := getElementId el
  , globalId := el.globalId
  , expressID := el.expressID
  , ifcClass := el.ifcClass
  , name := el.name
  , level := el.level
  , zone := el.zone
  , ruleId := rule.id
  , ruleName := rule.name
  , issueType := it
  , propertyPath := req.psetName ++ toL "." ++ req.propertyName
  , expected := expected
  , actual := actual
  , severity := match req.severity with
      | some s => s
      | none => getDefaultSeverity it
  , suggestedFix := fix }

/-- The body of `checkElement`'s requirement loop for one requirement:
resolve the property set and property and dispatch on the check type. -/
def checkRequirement (rc : RegexCompile) (el : ValidateElement)
    (rule : ValidateRule) (req : RuleRequirement) : List ValidationIssue :=
  match el.psets.find? (fun p => p.name = req.psetName) with
  | none =>
    if req.checkType = .ckExists ∨ req.checkType = .ckNotEmpty then
      [mkIssue el rule req .MissingParam (toL "Property should exist")
        (toL "Property set not found") none]
    else []
  | some pset =>
    match pset.properties.find? (fun p => p.name = req.propertyName) with
    | none =>
      [mkIssue el rule req .MissingParam (toL "Property should exist")
        (toL "Property not found") none]
    | some prop =>
      let value := prop.value
      match req.checkType with
      | .ckExists => []
      | .ckNotEmpty =>
        if value = .null ∨ value = .str [] then
          [mkIssue el rule req .MissingValue (toL "Value should not be empty")
            (displayActual value) none]
        else []
      | .ckEquals =>
        if ¬ strictEqExpected value req.expected then
          [mkIssue el rule req .WrongValue (displayExpected req.expected)
            (displayActual value) none]
        else []
      | .ckInList =>
        let list := expectedAsList req.expected
        if ¬ (some value ∈ list) then
          [mkIssue el rule req .WrongValue
            (toL "One of: " ++ joinExpectedList list) (displayActual value) none]
        else []
      | .ckRange =>
        let fails := match jsToNumber value with
          | none => true
          | some n =>
            (match req.min with | some m => decide (n < m) | none => false) ||
            (match req.max with | some m => decide (m < n) | none => false)
        if fails then
          [mkIssue el rule req .WrongValue
            ((match req.min with | some m => jsStringOfNum m | none => toL "-∞") ++
              toL " ≤ value ≤ " ++
              (match req.max with | some m => jsStringOfNum m | none => toL "∞"))
            (displayActual value) none]
        else []
      | .ckRegex =>
        match req.pattern with
        | none => []
        | some pat =>
          if pat = [] then []
          else
            match rc pat with
            | none => []
            | some test =>
              if test (regexArg value) then []
              else
                [mkIssue el rule req .Naming (toL "Matches: " ++ pat)
                  (displayActual value) (some (toL "Check naming convention"))]
      | .ckBoolean =>
        let ok := (match value with | .bool _ => true | _ => false) ||
          decide (value = .str (toL "true")) || decide (value = .str (toL "false")) ||
          decide (value = .str (toL ".T.")) || decide (value = .str (toL ".F."))
        if ok then []
        else
          [mkIssue el rule req .WrongValue (toL "Boolean value (true/false)")
            (displayActual value) none]

/-- The applicability gates at the top of `checkElement` (`undefined`
or empty allow-lists are skipped). -/
def applicabilityPass (el : ValidateElement) (rule : ValidateRule) : Bool :=
  (match rule.applicability.ifcClasses with
   | some l => if l.length > 0 then el.ifcClass ∈ l else true
   | none => true) &&
  (match rule.applicability.disciplines with
   | some l => if l.length > 0 then el.discipline ∈ l else true
   | none => true)

/-- `checkElement` from the validation core. -/
def checkElement (rc : RegexCompile) (el : ValidateElement)
    (rule : ValidateRule) : List ValidationIssue :=
  if applicabilityPass el rule then
    rule.requirements.flatMap (checkRequirement rc el rule)
  else []

/-- The result record of `runValidation` (the `timestamp` side effect
and progress messages are not modelled). -/
structure ValidateResult where
  issues : List ValidationIssue
  totalElements : Nat
  totalIssues : Nat
  errors : Nat
  warnings : Nat
  passed : Int
deriving DecidableEq, Repr

/-- The inner `for rule of rules` loop body, threading the issue list
and the set of element ids that have at least one issue. -/
def ruleFold (rc : RegexCompile) (el : ValidateElement)
    (acc : List ValidationIssue × Finset Nat) (rule : ValidateRule) :
    List ValidationIssue × Finset Nat :=
  let issues := checkElement rc el rule
  if issues.length > 0 then (acc.1 ++ issues, insert el.expressID acc.2)
  else acc

/-- `runValidation` from the validation worker. -/
def runValidation (rc : RegexCompile) (elements : List ValidateElement)
    (rules : List ValidateRule) : ValidateResult :=
  let res := elements.foldl
    (fun acc el => rules.foldl (ruleFold rc el) acc) ([], ∅)
  { issues := res.1
  , totalElements := elements.length
  , totalIssues := res.1.length
  , errors := (res.1.filter (fun i => i.severity = .Error)).length
  , warnings := (res.1.filter (fun i => i.severity = .Warning)).length
  , passed := (elements.length : Int) - res.2.card }

/- ===== IDS converter (idsParser: idsToRulePack) ===== -/

/-- An already-parsed IDS facet (the TS `IDSFacet` tagged union). -/
inductive IDSFacet where
  | entity (entityName : Option (List Char))
  | attr (attributeName : List Char) (value : Option (List Char))
    (pattern : Option (List Char))
  | property (psetName : List Char) (propertyName : List Char)
    (value : Option (List Char)) (pattern : Option (List Char))
  | classification
  | material
  | partOf
deriving DecidableEq, Repr

/-- The IDS cardinality attribute. -/
inductive IDSCardinality where
  | required
  | optional
  | prohibited
deriving DecidableEq, Repr

/-- TS `IDSRequirement`. -/
structure IDSRequirement where
  facet : IDSFacet
  cardinality : IDSCardinality
deriving DecidableEq, Repr

/-- TS `IDSSpecification`. -/
structure IDSSpecification where
  name : List Char
  description : Option (List Char) := none
  ifcVersion : Option (List Char) := none
  applicability : List IDSFacet
  requirements : List IDSRequirement
deriving DecidableEq, Repr

/-- TS `RulePack`. -/
structure RulePack where
  name : List Char
  version : List Char
  description : List Char
  rules : List ValidateRule
deriving DecidableEq, Repr

/-- JS truthiness of an optional string (`undefined`/`''` falsy). -/
def truthy : Option (List Char) → Bool
  | none => false
  | some s => !s.isEmpty

/-- The property-facet branch of `idsToRulePack`'s requirement loop:
`required` + truthy value → `equals`; else truthy pattern → `regex`;
else `notEmpty`; `prohibited` → `exists`; otherwise the initial
`exists`. -/
def convPropertyReq (ps pn : List Char) (v pat : Option (List Char))
    (card : IDSCardinality) : RuleRequirement :=
  let r0 : RuleRequirement := { psetName := ps, propertyName := pn,
                                checkType := .ckExists }
  match card with
  | .required =>
    if truthy v then
      { r0 with checkType := .ckEquals, expected := .val (.str (v.getD [])) }
    else if truthy pat then
      { r0 with checkType := .ckRegex, pattern := pat }
    else
      { r0 with checkType := .ckNotEmpty }
  | .prohibited => { r0 with checkType := .ckExists }
  | .optional => r0

/-- One iteration of `idsToRulePack`'s requirement loop: a property
facet always yields a requirement, an attribute facet yields one when
its name is truthy (mapped onto the `__attributes__` pseudo-pset, with
pattern taking precedence over value), any other facet yields none
(recorded only as an unsupported-facet warning). -/
def convReq (req : IDSRequirement) : Option RuleRequirement :=
  match req.facet with
  | .property ps pn v pat => some (convPropertyReq ps pn v pat req.cardinality)
  | .attr an v pat =>
    if an = [] then none
    else some
      { psetName := toL "__attributes__"
      , propertyName := an
      , checkType :=
          if truthy pat then .ckRegex
          else if truthy v then .ckEquals
          else .ckNotEmpty
      , expected := match v with | some s => .val (.str s) | none => .undef
      , pattern := pat }
  | _ => none

/-- The entity names collected from a specification's applicability
(`entity` facets with a truthy name). -/
def specIfcClasses (spec : IDSSpecification) : List (List Char) :=
  spec.applicability.filterMap (fun f =>
    match f with
    | .entity (some n) => if n = [] then none else some n
    | _ => none)

/-- `spec.name.replace(/\s+/g, '-').toLowerCase()`, fuel-based so the
kernel can evaluate it (each whitespace run becomes one `'-'`). -/
def collapseWsAux : Nat → List Char → List Char
  | 0, _ => []
  | _ + 1, [] => []
  | fuel + 1, c :: t =>
    if isWs c then '-' :: collapseWsAux fuel (t.dropWhile isWs)
    else c.toLower :: collapseWsAux fuel t

/-- `spec.name.replace(/\s+/g, '-').toLowerCase()`. -/
def collapseWs (l : List Char) : List Char := collapseWsAux (l.length + 1) l

/-- `idsToRulePack`'s rule-accumulation loop (a specification with no
convertible requirement produces no rule; the generated rule id embeds
the number of rules already emitted). -/
def idsRules (specs : List IDSSpecification) : List ValidateRule :=
  specs.foldl (fun acc spec =>
    let reqs := spec.requirements.filterMap convReq
    if reqs.length > 0 then
      acc ++ [{ id := toL "ids-" ++ collapseWs spec.name ++ toL "-" ++
                  strNat acc.length
              , name := spec.name
              , description := spec.description.getD []
              , applicability :=
                  { ifcClasses :=
                      if (specIfcClasses spec).length > 0 then
                        some (specIfcClasses spec)
                      else none
                  , disciplines := none }
              , requirements := reqs }]
    else acc) []

/-- The unsupported facets of one specification (pushed to the warning
list: non-entity applicability constraints and non-property,
non-attribute requirement facets). -/
def specUnsupportedCount (spec : IDSSpecification) : Nat :=
  (spec.applicability.filter (fun f =>
    match f with
    | .classification | .material | .partOf => true
    | _ => false)).length +
  (spec.requirements.filter (fun r =>
    match r.facet with
    | .property _ _ _ _ | .attr _ _ _ => false
    | _ => true)).length

/-- `idsToRulePack` from the IDS parser. -/
def idsToRulePack (specs : List IDSSpecification) (fileName : List Char) :
    RulePack :=
  let unsupported := (specs.map specUnsupportedCount).sum
  { name := toL "IDS: " ++ fileName
  , version := toL "1.0"
  , description := toL "Imported from " ++ fileName ++ toL ". " ++
      strNat unsupported ++ toL " unsupported facets skipped."
  , rules := idsRules specs }

/- ===== Specification-side predicates and concrete fixtures ===== -/

def c1St : ModelState :=
  { originalIfcText := some (toL "HEADER;ENDSEC;DATA;ENDSEC;")
  , elements :=
    [{ expressID := 1
     , psets :=
       [{ name := toL "Pset_WallCommon", expressID := 2, isEditable := true
        , properties :=
          [{ name := toL "FireRating", expressID := 3
           , value := .str (toL "2HR"), originalValue := .str (toL "2HR")
           , modified := true }] }] }] }

def c7El : IfcElement :=
  { expressID := 1
  , psets :=
    [{ name := toL "Pset_WallCommon", expressID := 2, isEditable := true
     , properties :=
       [{ name := toL "FireRating", expressID := 3
        , value := .str (toL "2HR"), originalValue := .str (toL "2HR")
        , modified := false }] }] }

def c7Store : List (Nat × IfcElement) := [(1, c7El)]

/-- The property reached after the C7 store update. -/
def propAfterC7 : Option Property :=
  ((updatePropertyValue c7Store 1 (toL "Pset_WallCommon") (toL "FireRating")
    (.str (toL "2HR"))).head?.bind
      (fun e => e.2.psets.head?.bind (fun ps => ps.properties.head?)))

def c4Line : List Char :=
  toL "#7=IFCPROPERTYSINGLEVALUE(" ++ [quoteChar] ++ toL "N" ++ [quoteChar] ++
  toL ",$,IFCLABEL(" ++ [quoteChar] ++ toL "x" ++ [quoteChar] ++ toL "),$);"

def c4Patch : PatchEntry :=
  { expressID := 7, propertyName := toL "P", psetName := toL "S",
    oldValue := toL "$", newValue := toL "1" }

def c4wLine : List Char :=
  toL "#9=IFCPROPERTYSINGLEVALUE(" ++ [quoteChar] ++ toL "FireRating" ++
  [quoteChar] ++ toL ",$,IFCLABEL(" ++ [quoteChar] ++ toL "2HR" ++ [quoteChar] ++
  toL "),$);"

def c4wPatch : PatchEntry :=
  { expressID := 9, propertyName := toL "FireRating",
    psetName := toL "Pset_WallCommon",
    oldValue := [quoteChar] ++ toL "2HR" ++ [quoteChar],
    newValue := [quoteChar] ++ toL "1HR" ++ [quoteChar] }

def rcNone : RegexCompile := fun _ => none

def c6El : ValidateElement :=
  { expressID := 5, globalId := toL "G1", name := toL "Wall", tag := toL "T1"
  , ifcClass := toL "IFCWALL", level := [], zone := []
  , discipline := toL "Architecture", psets := [] }

def c6Req : RuleRequirement :=
  { psetName := toL "Pset_WallCommon", propertyName := toL "FireRating"
  , checkType := .ckExists }

def c6Rule : ValidateRule :=
  { id := toL "r1", name := toL "Rule 1", requirements := [c6Req] }

/-- The deterministic issue id `"<expressID>-<ruleId>-<propertyName>"`. -/
def issueIdStr (eid : Nat) (rid pn : List Char) : List Char :=
  strNat eid ++ toL "-" ++ rid ++ toL "-" ++ pn

def c8El : ValidateElement :=
  { expressID := 1, globalId := toL "G2", name := toL "Door", tag := toL "T2"
  , ifcClass := toL "IFCDOOR", level := [], zone := []
  , discipline := toL "Architecture", psets := [] }

def c8RuleA : ValidateRule :=
  { id := toL "a-b", name := toL "A"
  , requirements :=
    [{ psetName := toL "P", propertyName := toL "c", checkType := .ckExists }] }

def c8RuleB : ValidateRule :=
  { id := toL "a", name := toL "B"
  , requirements :=
    [{ psetName := toL "P", propertyName := toL "b-c"
     , checkType := .ckExists }] }

theorem occurs_cons_succ {pat : List Char} {c : Char} {t : List Char} {j : Nat} :
    occurs pat (c :: t) (j + 1) ↔ occurs pat t j := by
  simp [occurs]

theorem occurs_zero {pat s : List Char} : occurs pat s 0 ↔ s.take pat.length = pat := by
  simp [occurs]

theorem firstOcc_some {pat s : List Char} {i : Nat}
    (h : firstOcc pat s = some i) :
    occurs pat s i ∧ ∀ j < i, ¬ occurs pat s j := by
  induction s generalizing i with
  | nil =>
    unfold firstOcc at h
    split at h
    · next hp =>
      cases h
      subst hp
      exact ⟨by simp [occurs], by omega⟩
    · cases h
  | cons c t ih =>
    unfold firstOcc at h
    split at h
    · next hp =>
      cases h
      exact ⟨occurs_zero.mpr hp, by omega⟩
    · next hp =>
      cases hk : firstOcc pat t with
      | none => rw [hk] at h; cases h
      | some k =>
        rw [hk] at h
        simp at h
        subst h
        obtain ⟨h1, h2⟩ := ih hk
        refine ⟨occurs_cons_succ.mpr h1, ?_⟩
        intro j hj
        match j with
        | 0 => exact fun hc => hp (occurs_zero.mp hc)
        | m + 1 =>
          intro hc
          exact h2 m (by omega) (occurs_cons_succ.mp hc)

theorem firstOcc_none {pat s : List Char}
    (h : firstOcc pat s = none) : ∀ i, ¬ occurs pat s i := by
  induction s with
  | nil =>
    unfold firstOcc at h
    split at h
    · cases h
    · next hp =>
      intro i hc
      exact hp (by simpa [occurs] using hc.symm)
  | cons c t ih =>
    unfold firstOcc at h
    split at h
    · cases h
    · next hp =>
      intro i hc
      match i with
      | 0 => exact hp (occurs_zero.mp hc)
      | m + 1 =>
        cases hk : firstOcc pat t with
        | none => exact ih (by simp [hk]) m (occurs_cons_succ.mp hc)
        | some k => rw [hk] at h; cases h

theorem occurs_pos_le {pat s : List Char} {i : Nat}
    (h : occurs pat s i) (hne : pat ≠ []) : i + pat.length ≤ s.length := by
  unfold occurs at h
  have hlen : ((s.drop i).take pat.length).length = pat.length := by rw [h]
  simp [List.length_take, List.length_drop] at hlen
  by_cases hi : i ≤ s.length
  · omega
  · exfalso
    have : s.drop i = [] := List.drop_eq_nil_of_le (by omega)
    rw [this] at h
    simp at h
    exact hne h

theorem idxFrom_some {pat s : List Char} {start i : Nat}
    (h : idxFrom pat s start = some i) :
    start ≤ i ∧ occurs pat s i ∧ ∀ j, start ≤ j → j < i → ¬ occurs pat s j := by
  unfold idxFrom at h
  cases hk : firstOcc pat (s.drop start) with
  | none => rw [hk] at h; cases h
  | some k =>
    rw [hk] at h
    simp at h
    subst h
    obtain ⟨h1, h2⟩ := firstOcc_some hk
    have hshift : ∀ m, occurs pat (s.drop start) m ↔ occurs pat s (start + m) := by
      intro m
      unfold occurs
      rw [List.drop_drop]
    refine ⟨by omega, ?_, ?_⟩
    · have := (hshift k).mp h1
      rwa [Nat.add_comm] at this
    · intro j hj1 hj2 hc
      have := (hshift (j - start)).mpr (by rwa [Nat.add_sub_cancel' hj1])
      exact h2 (j - start) (by omega) this

theorem strNatAux_irrel : ∀ f1 f2 n, n < f1 → n < f2 →
    strNatAux f1 n = strNatAux f2 n := by
  intro f1
  induction f1 with
  | zero => intro f2 n h; omega
  | succ f ih =>
    intro f2 n h1 h2
    match f2 with
    | 0 => omega
    | g + 1 =>
      show strNatAux (f + 1) n = strNatAux (g + 1) n
      unfold strNatAux
      split
      · rfl
      · next h10 =>
        have hd : n / 10 < n := Nat.div_lt_self (by omega) (by omega)
        rw [ih g (n / 10) (by omega) (by omega)]

theorem strNat_eq (n : Nat) :
    strNat n = if n < 10 then [digitChar n]
      else strNat (n / 10) ++ [digitChar (n % 10)] := by
  by_cases h : n < 10
  · simp only [h, if_true]
    show strNatAux (n + 1) n = [digitChar n]
    rw [strNatAux]
    simp [h]
  · simp only [h, if_false]
    show strNatAux (n + 1) n = strNatAux (n / 10 + 1) (n / 10) ++ [digitChar (n % 10)]
    have hd : n / 10 < n := Nat.div_lt_self (by omega) (by omega)
    rw [strNatAux]
    simp only [h, if_false]
    rw [strNatAux_irrel n (n / 10 + 1) (n / 10) (by omega) (by omega)]

theorem strNat_ne_nil (n : Nat) : strNat n ≠ [] := by
  rw [strNat_eq]
  split
  · simp
  · simp

theorem digitChar_isDigit {n : Nat} (h : n < 10) : (digitChar n).isDigit = true := by
  interval_cases n <;> decide

theorem digitChar_toNat {n : Nat} (h : n < 10) : (digitChar n).toNat - 48 = n := by
  interval_cases n <;> decide

theorem strNat_digits (n : Nat) : ∀ c ∈ strNat n, c.isDigit = true := by
  induction n using Nat.strong_induction_on with
  | _ n ih =>
    rw [strNat_eq]
    split
    · next h => simpa using digitChar_isDigit h
    · next h =>
      intro c hc
      simp at hc
      rcases hc with hc | hc
      · exact ih (n / 10) (Nat.div_lt_self (by omega) (by omega)) c hc
      · subst hc; exact digitChar_isDigit (Nat.mod_lt _ (by omega))

theorem valNat_append_digit (l : List Char) (d : Char) :
    valNat (l ++ [d]) = 10 * valNat l + (d.toNat - 48) := by
  simp [valNat, List.foldl_append]

theorem valNat_strNat (n : Nat) : valNat (strNat n) = n := by
  induction n using Nat.strong_induction_on with
  | _ n ih =>
    rw [strNat_eq]
    split
    · next h =>
      show valNat [digitChar n] = n
      simp [valNat]
      exact digitChar_toNat h
    · next h =>
      rw [valNat_append_digit, ih (n / 10) (Nat.div_lt_self (by omega) (by omega)),
        digitChar_toNat (Nat.mod_lt _ (by omega))]
      omega

theorem isDigit_ne_dash {c : Char} (h : c.isDigit = true) : c ≠ '-' := by
  rintro rfl
  simp [Char.isDigit] at h

theorem isDigit_ne_dot {c : Char} (h : c.isDigit = true) : c ≠ '.' := by
  rintro rfl
  simp [Char.isDigit] at h

/- ===== C1: zero-modification export round trip ===== -/

/-- C1.  With no property of any editable property set both modified
and different from its original value (so the collected patch list is
empty) and the original IFC text present (JS-truthy: non-null and
non-empty), `exportModifiedIfc` returns the original text unchanged and
does not throw, for either export mode. -/
theorem c1_roundtrip_no_modifications
    (st : ModelState) (t : List Char) (forceRewrite : Bool)
    (htext : st.originalIfcText = some t) (hne : t ≠ [])
    (hclean : ∀ el ∈ st.elements, ∀ ps ∈ el.psets, ps.isEditable = true →
      ∀ p ∈ ps.properties, ¬(p.modified = true ∧ p.value ≠ p.originalValue)) :
    exportModifiedIfc st forceRewrite = .ok t := by
  have hc : collectModifiedProperties st.elements = [] := by
    unfold collectModifiedProperties
    rw [List.flatMap_eq_nil_iff]
    intro el hel
    rw [List.flatMap_eq_nil_iff]
    intro ps hps
    split
    · next hed =>
      rw [List.filterMap_eq_nil_iff]
      intro p hp
      exact if_neg (hclean el hel ps hps hed p hp)
    · rfl
  unfold exportModifiedIfc
  rw [htext]
  simp [hne, hc]

/-- C1 witness: a model whose only property is `modified` but equal to
its original value still round-trips byte-identically. -/
theorem c1_witness :
    exportModifiedIfc c1St false = .ok (toL "HEADER;ENDSEC;DATA;ENDSEC;") :=
  c1_roundtrip_no_modifications c1St (toL "HEADER;ENDSEC;DATA;ENDSEC;") false
    rfl (by decide) (by decide)

/- ===== C7: the modified flag ===== -/

/-- C7 counterexample: calling `updatePropertyValue` with the value
already equal to `originalValue` still sets `modified = true`, so
`modified = true` does not imply `value ≠ originalValue` at the moment
it was set. -/
theorem c7_counterexample :
    propAfterC7.map Property.modified = some true ∧
    propAfterC7.map Property.value = propAfterC7.map Property.originalValue := by
  decide

theorem find?_updateFirst {α} (q : α → Bool) (f : α → α)
    (hf : ∀ a, q (f a) = q a) (l : List α) :
    (updateFirst q f l).find? q = (l.find? q).map f := by
  induction l with
  | nil => rfl
  | cons x xs ih =>
    by_cases hx : q x
    · simp [updateFirst, hx, List.find?_cons, hf x]
    · simp [updateFirst, hx, List.find?_cons, ih]

/-- C7 amended.  `updatePropertyValue` unconditionally sets
`modified := true` and `value := v` on the located property (first
matching element entry, property set, and property), preserving
`originalValue`; the `modified` flag therefore records "has been
touched", not "differs from the original value". -/
theorem c7_amended (els : List (Nat × IfcElement)) (elementID : Nat)
    (psetName propertyName : List Char) (v : PropertyValue)
    (e : Nat × IfcElement) (ps : PropertySet) (p : Property)
    (he : els.find? (fun x => x.1 = elementID) = some e)
    (hps : e.2.psets.find? (fun x => x.name = psetName) = some ps)
    (hp : ps.properties.find? (fun x => x.name = propertyName) = some p) :
    ∃ e' ps' p',
      (updatePropertyValue els elementID psetName propertyName v).find?
        (fun x => x.1 = elementID) = some e' ∧
      e'.2.psets.find? (fun x => x.name = psetName) = some ps' ∧
      ps'.properties.find? (fun x => x.name = propertyName) = some p' ∧
      p'.modified = true ∧ p'.value = v ∧ p'.originalValue = p.originalValue := by
  refine ⟨(e.1, updateElementPset psetName propertyName v e.2),
    updatePsetProp propertyName v ps, setPropValue v p, ?_, ?_, ?_, rfl, rfl, rfl⟩
  · unfold updatePropertyValue
    rw [find?_updateFirst (fun (x : Nat × IfcElement) => decide (x.1 = elementID))
      (fun e => (e.1, updateElementPset psetName propertyName v e.2))
      (fun a => rfl) els, he]
    rfl
  · show (updateElementPset psetName propertyName v e.2).psets.find?
      (fun x => x.name = psetName) = some (updatePsetProp propertyName v ps)
    unfold updateElementPset
    rw [find?_updateFirst (fun (x : PropertySet) => decide (x.name = psetName))
      (updatePsetProp propertyName v) (fun a => rfl) e.2.psets, hps]
    rfl
  · show (updatePsetProp propertyName v ps).properties.find?
      (fun x => x.name = propertyName) = some (setPropValue v p)
    unfold updatePsetProp
    rw [find?_updateFirst (fun (x : Property) => decide (x.name = propertyName))
      (setPropValue v) (fun a => rfl) ps.properties, hp]
    rfl

/-- C7 amended witness: concrete application of `c7_amended`. -/
theorem c7_witness :
    ∃ e' ps' p',
      (updatePropertyValue c7Store 1 (toL "Pset_WallCommon") (toL "FireRating")
        (.str (toL "1HR"))).find? (fun x => x.1 = 1) = some e' ∧
      e'.2.psets.find? (fun x => x.name = toL "Pset_WallCommon") = some ps' ∧
      ps'.properties.find? (fun x => x.name = toL "FireRating") = some p' ∧
      p'.modified = true ∧ p'.value = .str (toL "1HR") ∧
      p'.originalValue = .str (toL "2HR") :=
  c7_amended c7Store 1 (toL "Pset_WallCommon") (toL "FireRating")
    (.str (toL "1HR")) (1, c7El)
    { name := toL "Pset_WallCommon", expressID := 2, isEditable := true
    , properties :=
      [{ name := toL "FireRating", expressID := 3
       , value := .str (toL "2HR"), originalValue := .str (toL "2HR")
       , modified := false }] }
    { name := toL "FireRating", expressID := 3
    , value := .str (toL "2HR"), originalValue := .str (toL "2HR")
    , modified := false }
    (by decide) (by decide) (by decide)

/- ===== C3: tryPatchExport failure conditions ===== -/

theorem tryPatchExport_cons (t : List Char) (p : PatchEntry)
    (ps : List PatchEntry) :
    tryPatchExport t (p :: ps) =
      match tryPatchStep t p with
      | none => none
      | some t' => tryPatchExport t' ps := by
  show List.foldlM tryPatchStep t (p :: ps) = _
  rw [List.foldlM_cons]
  cases tryPatchStep t p <;> rfl

/-- C4 counterexample: a single patch whose formatted old value (`'$'`)
does occur in the located `#7=` line, yet the patch attempt fails
(returns `none`) rather than succeeding, because of the dedicated
`'$'` guard. -/
theorem c4_counterexample :
    firstOcc (idString 7) c4Line = some 0 ∧
    idxFrom [';'] c4Line 0 = some (c4Line.length - 1) ∧
    firstOcc c4Patch.oldValue
      (substringJS c4Line 0 (c4Line.length - 1 + 1)) = some 30 ∧
    tryPatchExport c4Line [c4Patch] = none := by
  refine ⟨by decide, by decide, by decide, by decide⟩

/-- C4 amended.  For a single patch whose old value is locatable (line
found, terminating `';'` found, old token occurring in the line) and is
not the literal `'$'`, the patch attempt succeeds and the output
differs from the input only at the first occurrence of the old token
inside the line, which is replaced by the new value: all bytes before
`ls + j` and from `ls + j + |old|` on are unchanged. -/
theorem c4_patch_frame (t : List Char) (p : PatchEntry) (ls le j : Nat)
    (h1 : firstOcc (idString p.expressID) t = some ls)
    (h2 : idxFrom [';'] t ls = some le)
    (h3 : ¬ p.oldValue = toL "$")
    (h4 : firstOcc p.oldValue (substringJS t ls (le + 1)) = some j) :
    tryPatchExport t [p] =
      some (t.take (ls + j) ++ p.newValue ++
        t.drop (ls + j + p.oldValue.length)) := by
  have hocc := (firstOcc_some h4).1
  obtain ⟨hle, hoccSemi, _⟩ := idxFrom_some h2
  have hlen1 : le + 1 ≤ t.length := by
    have := occurs_pos_le hoccSemi (by decide)
    simpa using this
  have hL : (substringJS t ls (le + 1)).length = le + 1 - ls := by
    simp [substringJS, List.length_take, List.length_drop]
    omega
  have hjb : j + p.oldValue.length ≤ le + 1 - ls := by
    rcases old_eq : p.oldValue with _ | ⟨c, cs⟩
    · have h0 : firstOcc ([] : List Char) (substringJS t ls (le + 1)) = some 0 := by
        cases s0 : substringJS t ls (le + 1) with
        | nil => simp [firstOcc]
        | cons a u => simp [firstOcc]
      rw [old_eq, h0] at h4
      cases h4
      simp
    · have hb := occurs_pos_le hocc (by simp [old_eq])
      rw [hL] at hb
      rw [old_eq] at hb
      exact hb
  -- evaluate the patch attempt
  rw [tryPatchExport_cons]
  simp only [tryPatchStep, h1, h2, if_neg h3, h4]
  show tryPatchExport _ [] = _
  unfold tryPatchExport
  simp only [List.foldlM_nil]
  congr 1
  -- the list identity
  set k := p.oldValue.length with hk
  have hA : t.take ls ++ (substringJS t ls (le + 1)).take j = t.take (ls + j) := by
    unfold substringJS
    rw [List.take_take, Nat.min_eq_left (by omega), ← List.take_add]
  have hB : (substringJS t ls (le + 1)).drop (j + k) ++ t.drop (le + 1) =
      t.drop (ls + j + k) := by
    unfold substringJS
    rw [List.drop_take, List.drop_drop]
    have hd : t.drop (le + 1) = (t.drop (ls + (j + k))).drop (le + 1 - ls - (j + k)) := by
      rw [List.drop_drop]
      congr 1
      omega
    rw [hd]
    have : ls + j + k = ls + (j + k) := by omega
    rw [this]
    exact List.take_append_drop _ _
  calc t.take ls ++
        ((substringJS t ls (le + 1)).take j ++ p.newValue ++
          (substringJS t ls (le + 1)).drop (j + k)) ++ t.drop (le + 1)
      = (t.take ls ++ (substringJS t ls (le + 1)).take j) ++ p.newValue ++
          ((substringJS t ls (le + 1)).drop (j + k) ++ t.drop (le + 1)) := by
        simp [List.append_assoc]
    _ = t.take (ls + j) ++ p.newValue ++ t.drop (ls + j + k) := by
        rw [hA, hB]

/-- C4 amended witness: concrete application of `c4_patch_frame`. -/
theorem c4_witness :
    tryPatchExport c4wLine [c4wPatch] =
      some (c4wLine.take (0 + 50) ++ c4wPatch.newValue ++
        c4wLine.drop (0 + 50 + c4wPatch.oldValue.length)) :=
  c4_patch_frame c4wLine c4wPatch 0 (c4wLine.length - 1) 50
    (by decide) (by decide) (by decide) (by decide)

/- ===== C5: the value formatter ===== -/

theorem head?_dropWhile_not (p : Char → Bool) (l : List Char) :
    ∀ a, (l.dropWhile p).head? = some a → p a = false := by
  induction l with
  | nil => intro a h; simp [List.dropWhile] at h
  | cons x xs ih =>
    intro a h
    by_cases hx : p x
    · rw [List.dropWhile_cons_of_pos hx] at h
      exact ih a h
    · rw [List.dropWhile_cons_of_neg hx] at h
      simp at h
      subst h
      simpa using hx

theorem dropWhile_replicate_zero (m : Nat) :
    List.dropWhile (fun c => c = '0') (List.replicate m '0') = [] := by
  induction m with
  | zero => rfl
  | succ k ih => simp [List.replicate_succ, ih]

theorem trim_decomp (l : List Char) :
    ∃ m, l = trimTrailingZeros l ++ List.replicate m '0' ∧
      ∀ a, (trimTrailingZeros l).getLast? = some a → a ≠ '0' := by
  refine ⟨(l.reverse.takeWhile (fun c => c = '0')).length, ?_, ?_⟩
  · conv_lhs => rw [← l.reverse_reverse,
      ← List.takeWhile_append_dropWhile (p := fun c => c = '0') (l := l.reverse)]
    rw [List.reverse_append]
    unfold trimTrailingZeros
    congr 1
    rw [List.eq_replicate_iff]
    refine ⟨by simp, ?_⟩
    intro b hb
    rw [List.mem_reverse] at hb
    simpa using List.mem_takeWhile_imp hb
  · intro a ha
    unfold trimTrailingZeros at ha
    rw [List.getLast?_reverse] at ha
    have := head?_dropWhile_not (fun c => c = '0') l.reverse a ha
    simpa using this

theorem trim_mid (X F : List Char) :
    trimTrailingZeros (X ++ '.' :: F) =
      if trimTrailingZeros F = [] then X ++ ['.']
      else X ++ '.' :: trimTrailingZeros F := by
  obtain ⟨m, hdecomp, hlast⟩ := trim_decomp F
  set B := trimTrailingZeros F with hB
  have hFrev : F.reverse = List.replicate m '0' ++ B.reverse := by
    conv_lhs => rw [hdecomp]
    simp
  have key : trimTrailingZeros (X ++ '.' :: F) =
      (List.dropWhile (fun c => decide (c = '0'))
        (B.reverse ++ '.' :: X.reverse)).reverse := by
    show (List.dropWhile _ (X ++ '.' :: F).reverse).reverse = _
    rw [show (X ++ '.' :: F).reverse = F.reverse ++ '.' :: X.reverse by simp,
      hFrev, List.append_assoc, List.dropWhile_append, dropWhile_replicate_zero]
    simp
  rw [key]
  cases hBe : B.reverse with
  | nil =>
    have hBnil : B = [] := by
      have := congrArg List.reverse hBe
      simpa using this
    rw [if_pos hBnil]
    rw [List.nil_append, List.dropWhile_cons_of_neg (by decide)]
    simp
  | cons b0 rest =>
    have hBne : B ≠ [] := by
      intro hc
      rw [hc] at hBe
      simp at hBe
    rw [if_neg hBne]
    have hb0 : b0 ≠ '0' := by
      apply hlast
      rw [← List.head?_reverse, hBe]
      simp
    rw [List.cons_append, List.dropWhile_cons_of_neg (by simpa using hb0)]
    rw [← List.cons_append, ← hBe]
    simp

theorem strNat_length_le : ∀ n k, 1 ≤ k → n < 10 ^ k → (strNat n).length ≤ k := by
  intro n
  induction n using Nat.strong_induction_on with
  | _ n ih =>
    intro k hk hn
    rw [strNat_eq]
    split
    · simpa using hk
    · next h10 =>
      have hk2 : 2 ≤ k := by
        by_contra hc
        have : k = 1 := by omega
        subst this
        simp at hn
        omega
      have hdiv : n / 10 < 10 ^ (k - 1) := by
        have h1 : (10 : Nat) ^ (k - 1) * 10 = 10 ^ k := by
          rw [← pow_succ]
          congr 1
          omega
        apply Nat.div_lt_of_lt_mul
        have h2 : (10 : Nat) * 10 ^ (k - 1) = 10 ^ k := by
          rw [Nat.mul_comm]
          exact h1
        omega
      have := ih (n / 10) (Nat.div_lt_self (by omega) (by omega)) (k - 1)
        (by omega) hdiv
      simp only [List.length_append, List.length_cons, List.length_nil]
      omega

theorem padZeros_length {l : List Char} (h : l.length ≤ 6) :
    (padZeros l 6).length = 6 := by
  simp [padZeros]
  omega

theorem padZeros_digits {l : List Char} (h : ∀ c ∈ l, c.isDigit = true) :
    ∀ c ∈ padZeros l 6, c.isDigit = true := by
  intro c hc
  simp [padZeros, List.mem_append, List.mem_replicate] at hc
  rcases hc with ⟨-, rfl⟩ | hc
  · decide
  · exact h c hc

/-- The structural content of the non-integral formatting branch. -/
theorem formatNum_structure (q : ℚ) (hden : q.den ≠ 1) :
    ∃ a b, formatIfcValue (.num q) = a ++ '.' :: b ∧
      1 ≤ b.length ∧ b.length ≤ 6 ∧ (∀ c ∈ b, c.isDigit = true) ∧
      (b.getLast? = some '0' → b = ['0']) ∧
      ∃ ds, a = (if q < 0 then ['-'] else []) ++ ds ∧ ds ≠ [] ∧
        ∀ c ∈ ds, c.isDigit = true := by
  have hfmt : formatIfcValue (.num q) =
      fixTrailingDot (trimTrailingZeros (toFixed6 q)) := by
    simp [formatIfcValue, hden]
  set n : Nat := (2 * q.num.natAbs * 1000000 + q.den) / (2 * q.den) with hn
  set X : List Char := (if q < 0 then ['-'] else []) ++ strNat (n / 1000000)
    with hX
  set F : List Char := padZeros (strNat (n % 1000000)) 6 with hF
  have hto : toFixed6 q = X ++ '.' :: F := by
    simp [toFixed6, hX, hF, List.append_assoc]
  have hFlen : F.length = 6 := by
    rw [hF]
    exact padZeros_length (strNat_length_le _ 6 (by omega)
      (by have := Nat.mod_lt n (show 0 < 1000000 by omega); omega))
  have hFdig : ∀ c ∈ F, c.isDigit = true := by
    rw [hF]
    exact padZeros_digits (strNat_digits _)
  obtain ⟨m, hdecomp, hlast⟩ := trim_decomp F
  rw [hfmt, hto, trim_mid]
  by_cases hBe : trimTrailingZeros F = []
  · refine ⟨X, ['0'], ?_, by simp, by simp, by simp, by simp, ?_⟩
    · rw [if_pos hBe]
      unfold fixTrailingDot
      rw [if_pos (List.getLast?_concat X)]
      simp
    · exact ⟨strNat (n / 1000000), rfl, strNat_ne_nil _, strNat_digits _⟩
  · have hBlast : ∀ a, (trimTrailingZeros F).getLast? = some a → a ≠ '0' := hlast
    have hBdig : ∀ c ∈ trimTrailingZeros F, c.isDigit = true := by
      intro c hc
      apply hFdig
      rw [hdecomp]
      exact List.mem_append_left _ hc
    refine ⟨X, trimTrailingZeros F, ?_, List.length_pos.mpr hBe, ?_, hBdig, ?_, ?_⟩
    · rw [if_neg hBe]
      have hgl : (X ++ '.' :: trimTrailingZeros F).getLast? =
          (trimTrailingZeros F).getLast? := by
        rw [List.getLast?_append_of_ne_nil X (by simp)]
        rw [show ('.' :: trimTrailingZeros F) = ['.'] ++ trimTrailingZeros F
          from rfl]
        rw [List.getLast?_append_of_ne_nil ['.'] hBe]
      have hcond : ¬((trimTrailingZeros F).getLast? = some '.') := by
        intro hc
        have := hBdig '.' (List.mem_of_mem_getLast? hc)
        simp at this
      unfold fixTrailingDot
      rw [hgl, if_neg hcond]
    · have := congrArg List.length hdecomp
      simp [hFlen] at this
      omega
    · intro h
      exact absurd rfl (hlast '0' h)
    · exact ⟨strNat (n / 1000000), rfl, strNat_ne_nil _, strNat_digits _⟩

/-- C5 (amended).  `formatIfcValue`: `null` → `'$'`; booleans →
`.T.`/`.F.`; integral numbers of magnitude below `10^21` → sign plus
decimal digits of the magnitude with no decimal point (JS `String()`
switches to exponential notation from `10^21` on, see the
counterexample); non-integral numbers → fixed-point with at most 6
fractional digits, trailing zeros trimmed but never below one digit
after the decimal point (the output always contains a decimal point);
strings → wrapped in single quotes with internal quotes doubled. -/
theorem c5_format_value :
    (formatIfcValue .null = toL "$") ∧
    (formatIfcValue (.bool true) = toL ".T.") ∧
    (formatIfcValue (.bool false) = toL ".F.") ∧
    (∀ q : ℚ, q.den = 1 → q.num.natAbs < 10 ^ 21 →
      ∃ ds, formatIfcValue (.num q) = (if q.num < 0 then ['-'] else []) ++ ds ∧
        ds ≠ [] ∧ (∀ c ∈ ds, c.isDigit = true) ∧ valNat ds = q.num.natAbs ∧
        '.' ∉ formatIfcValue (.num q)) ∧
    (∀ q : ℚ, q.den ≠ 1 →
      ∃ a b, formatIfcValue (.num q) = a ++ '.' :: b ∧
        1 ≤ b.length ∧ b.length ≤ 6 ∧ (∀ c ∈ b, c.isDigit = true) ∧
        (b.getLast? = some '0' → b = ['0']) ∧
        ∃ ds, a = (if q < 0 then ['-'] else []) ++ ds ∧ ds ≠ [] ∧
          ∀ c ∈ ds, c.isDigit = true) ∧
    (∀ s : List Char, formatIfcValue (.str s) =
      quoteChar :: s.flatMap (fun c => if c = quoteChar then [c, c] else [c]) ++
        [quoteChar]) := by
  refine ⟨rfl, rfl, rfl, ?_, ?_, fun s => rfl⟩
  · intro q hden hbound
    have hfmt : formatIfcValue (.num q) = intStr q.num := by
      simp [formatIfcValue, hden]
    rw [hfmt]
    unfold intStr
    rw [if_pos hbound]
    refine ⟨strNat q.num.natAbs, rfl, strNat_ne_nil _, strNat_digits _,
      valNat_strNat _, ?_⟩
    intro hmem
    rcases List.mem_append.mp hmem with h | h
    · split at h <;> simp at h
    · exact absurd (strNat_digits _ '.' h) (by decide)
  · intro q hden
    exact formatNum_structure q hden

/-- C5 counterexample: contrary to the claim's integral clause, the
integral value `10^21` (an exact double, `Number.isInteger(1e21)` is
true) is rendered as `"1e+21"` — JS `String()` exponential notation,
containing the non-digit characters `'e'` and `'+'` — not as decimal
digits. -/
theorem c5_counterexample :
    (mkRat (10 ^ 21) 1).den = 1 ∧
    formatIfcValue (.num (mkRat (10 ^ 21) 1)) = toL "1e+21" ∧
    'e' ∈ formatIfcValue (.num (mkRat (10 ^ 21) 1)) ∧
    ¬ (∀ c ∈ formatIfcValue (.num (mkRat (10 ^ 21) 1)),
        c.isDigit = true) := by
  decide

/-- C5 witness: the integral clause at `42` and the non-integral
clause at `3/2`. -/
theorem c5_witness :
    (∃ ds, formatIfcValue (.num (mkRat 42 1)) =
        (if (mkRat 42 1).num < 0 then ['-'] else []) ++ ds ∧ ds ≠ [] ∧
        (∀ c ∈ ds, c.isDigit = true) ∧ valNat ds = (mkRat 42 1).num.natAbs ∧
        '.' ∉ formatIfcValue (.num (mkRat 42 1))) ∧
    (∃ a b, formatIfcValue (.num (mkRat 3 2)) = a ++ '.' :: b ∧
      1 ≤ b.length ∧ b.length ≤ 6 ∧ (∀ c ∈ b, c.isDigit = true) ∧
      (b.getLast? = some '0' → b = ['0']) ∧
      ∃ ds, a = (if mkRat 3 2 < 0 then ['-'] else []) ++ ds ∧ ds ≠ [] ∧
        ∀ c ∈ ds, c.isDigit = true) :=
  ⟨c5_format_value.2.2.2.1 (mkRat 42 1) (by decide) (by decide),
   c5_format_value.2.2.2.2.1 (mkRat 3 2) (by decide)⟩

/- ===== C6: missing property set / missing property ===== -/

/-- C6.  For an applicable element, `checkElement` evaluates every
requirement in order; a requirement whose property set is absent emits
one `MissingParam` issue exactly when its checkType is `exists` or
`notEmpty` (and nothing otherwise); a requirement whose property set is
present but property absent always emits exactly one `MissingParam`
issue. -/
theorem c6_missing_param (rc : RegexCompile) (el : ValidateElement)
    (rule : ValidateRule) (req : RuleRequirement)
    (happ : applicabilityPass el rule = true) :
    checkElement rc el rule =
      rule.requirements.flatMap (checkRequirement rc el rule) ∧
    (el.psets.find? (fun p => p.name = req.psetName) = none →
      ((req.checkType = .ckExists ∨ req.checkType = .ckNotEmpty) →
        ∃ iss, checkRequirement rc el rule req = [iss] ∧
          iss.issueType = .MissingParam) ∧
      (¬(req.checkType = .ckExists ∨ req.checkType = .ckNotEmpty) →
        checkRequirement rc el rule req = [])) ∧
    (∀ pset, el.psets.find? (fun p => p.name = req.psetName) = some pset →
      pset.properties.find? (fun p => p.name = req.propertyName) = none →
      ∃ iss, checkRequirement rc el rule req = [iss] ∧
        iss.issueType = .MissingParam) := by
  refine ⟨by simp [checkElement, happ], ?_, ?_⟩
  · intro hnone
    constructor
    · intro hck
      refine ⟨mkIssue el rule req .MissingParam (toL "Property should exist")
        (toL "Property set not found") none, ?_, rfl⟩
      simp only [checkRequirement, hnone]
      rw [if_pos hck]
    · intro hck
      simp only [checkRequirement, hnone]
      rw [if_neg hck]
  · intro pset hps hprop
    refine ⟨mkIssue el rule req .MissingParam (toL "Property should exist")
      (toL "Property not found") none, ?_, rfl⟩
    simp only [checkRequirement, hps, hprop]

/-- C6 witness: an element with no property sets and an `exists`
requirement yields exactly one `MissingParam` issue. -/
theorem c6_witness :
    ∃ iss, checkRequirement rcNone c6El c6Rule c6Req = [iss] ∧
      iss.issueType = .MissingParam :=
  ((c6_missing_param rcNone c6El c6Rule c6Req (by decide)).2.1
    (by decide)).1 (Or.inl rfl)

/- ===== C8: issue ids ===== -/

theorem mem_checkRequirement_shape {rc : RegexCompile} {el : ValidateElement}
    {rule : ValidateRule} {req : RuleRequirement} {iss : ValidationIssue}
    (h : iss ∈ checkRequirement rc el rule req) :
    ∃ it exp act fix, iss = mkIssue el rule req it exp act fix := by
  unfold checkRequirement at h
  repeat
    first
      | exact ⟨_, _, _, _, List.mem_singleton.mp h⟩
      | exact absurd h (List.not_mem_nil _)
      | split at h
      | simp only [] at h

theorem append_dash_inj {a b x y : List Char} (ha : '-' ∉ a) (hb : '-' ∉ b)
    (h : a ++ '-' :: x = b ++ '-' :: y) : a = b ∧ x = y := by
  induction a generalizing b with
  | nil =>
    cases b with
    | nil => simpa using h
    | cons d bs =>
      simp at h
      exact absurd (h.1 ▸ List.mem_cons_self d bs) hb
  | cons c as ih =>
    cases b with
    | nil =>
      simp at h
      exact absurd (h.1.symm ▸ List.mem_cons_self c as) ha
    | cons d bs =>
      simp at h
      have hh := ih (fun hm => ha (List.mem_cons_of_mem _ hm))
        (fun hm => hb (List.mem_cons_of_mem _ hm)) h.2
      exact ⟨by rw [h.1, hh.1], hh.2⟩

theorem dash_not_mem_strNat (n : Nat) : '-' ∉ strNat n := by
  intro hm
  exact absurd (strNat_digits n '-' hm) (by decide)

/-- C8.  Every issue emitted by `checkElement` carries the id
`"<expressID>-<ruleId>-<propertyName>"` of some requirement of the
rule; the encoding is injective (so ids of distinct triples are
distinct) provided rule ids and property names contain no `'-'`. -/
theorem c8_issue_ids (rc : RegexCompile) :
    (∀ el rule iss, iss ∈ checkElement rc el rule →
      ∃ req ∈ rule.requirements,
        iss.id = issueIdStr el.expressID rule.id req.propertyName ∧
        iss.expressID = el.expressID ∧ iss.ruleId = rule.id) ∧
    (∀ e1 r1 p1 e2 r2 p2, '-' ∉ r1 → '-' ∉ p1 → '-' ∉ r2 → '-' ∉ p2 →
      issueIdStr e1 r1 p1 = issueIdStr e2 r2 p2 →
      e1 = e2 ∧ r1 = r2 ∧ p1 = p2) := by
  constructor
  · intro el rule iss hmem
    unfold checkElement at hmem
    split at hmem
    · obtain ⟨req, hreq, hiss⟩ := List.mem_flatMap.mp hmem
      obtain ⟨it, exp, act, fix, rfl⟩ := mem_checkRequirement_shape hiss
      exact ⟨req, hreq, rfl, rfl, rfl⟩
    · exact absurd hmem (List.not_mem_nil _)
  · intro e1 r1 p1 e2 r2 p2 hr1 hp1 hr2 hp2 h
    have hshape : ∀ e (r p : List Char),
        issueIdStr e r p = strNat e ++ '-' :: (r ++ '-' :: p) := by
      intro e r p
      show strNat e ++ toL "-" ++ r ++ toL "-" ++ p = _
      rw [show toL "-" = ['-'] from rfl]
      simp
    rw [hshape, hshape] at h
    obtain ⟨h1, h2⟩ := append_dash_inj (dash_not_mem_strNat e1)
      (dash_not_mem_strNat e2) h
    obtain ⟨h3, h4⟩ := append_dash_inj hr1 hr2 h2
    refine ⟨?_, h3, h4⟩
    have := congrArg valNat h1
    rwa [valNat_strNat, valNat_strNat] at this

/-- C8 counterexample: two issues arising from the distinct triples
`(1, "a-b", "c")` and `(1, "a", "b-c")` carry the same id
`"1-a-b-c"`, so distinct triples do not guarantee distinct ids when
rule ids or property names contain `'-'`. -/
theorem c8_counterexample :
    (checkElement rcNone c8El c8RuleA).map ValidationIssue.id =
      [toL "1-a-b-c"] ∧
    (checkElement rcNone c8El c8RuleB).map ValidationIssue.id =
      [toL "1-a-b-c"] ∧
    (c8RuleA.id, c8RuleA.requirements.map RuleRequirement.propertyName) ≠
      (c8RuleB.id, c8RuleB.requirements.map RuleRequirement.propertyName) := by
  refine ⟨by decide, by decide, by decide⟩

/-- C8 witness: concrete application of the injectivity half of
`c8_issue_ids`. -/
theorem c8_witness :
    (7 : Nat) = 7 ∧ toL "r" = toL "r" ∧ toL "N" = toL "N" :=
  (c8_issue_ids rcNone).2 7 (toL "r") (toL "N") 7 (toL "r") (toL "N")
    (by decide) (by decide) (by decide) (by decide) rfl

/- ===== C10: result aggregation invariants ===== -/

theorem filter_severity_partition (l : List ValidationIssue) :
    (l.filter (fun i => i.severity = .Error)).length +
    (l.filter (fun i => i.severity = .Warning)).length = l.length := by
  induction l with
  | nil => rfl
  | cons i t ih =>
    cases hs : i.severity <;>
      simp [List.filter_cons, hs] <;> omega

theorem ruleFold_set (rc : RegexCompile) (el : ValidateElement)
    (rules : List ValidateRule) :
    ∀ acc : List ValidationIssue × Finset Nat,
      (rules.foldl (ruleFold rc el) acc).2 = acc.2 ∨
      (rules.foldl (ruleFold rc el) acc).2 = insert el.expressID acc.2 := by
  induction rules with
  | nil => intro acc; exact Or.inl rfl
  | cons r rs ih =>
    intro acc
    rw [List.foldl_cons]
    have hstep : (ruleFold rc el acc r).2 = acc.2 ∨
        (ruleFold rc el acc r).2 = insert el.expressID acc.2 := by
      unfold ruleFold
      simp only []
      split
      · exact Or.inr rfl
      · exact Or.inl rfl
    rcases ih (ruleFold rc el acc r) with h | h <;> rcases hstep with h2 | h2
    · exact Or.inl (h.trans h2)
    · exact Or.inr (h.trans h2)
    · exact Or.inr (by rw [h, h2])
    · exact Or.inr (by rw [h, h2, Finset.insert_idem])

theorem validation_card_le (rc : RegexCompile) (elements : List ValidateElement)
    (rules : List ValidateRule) :
    ∀ acc : List ValidationIssue × Finset Nat,
      (elements.foldl (fun acc el => rules.foldl (ruleFold rc el) acc) acc).2.card ≤
        acc.2.card + elements.length := by
  induction elements with
  | nil => intro acc; simp
  | cons el els ih =>
    intro acc
    rw [List.foldl_cons]
    have h1 := ih (rules.foldl (ruleFold rc el) acc)
    have h2 : (rules.foldl (ruleFold rc el) acc).2.card ≤ acc.2.card + 1 := by
      rcases ruleFold_set rc el rules acc with h | h
      · rw [h]; omega
      · rw [h]; exact Finset.card_insert_le _ _
    simp only [List.length_cons]
    omega

/-- C10.  For every run, `errors + warnings = totalIssues` (every
severity is `Error` or `Warning`) and `0 ≤ passed ≤ totalElements`. -/
theorem c10_result_invariants (rc : RegexCompile)
    (elements : List ValidateElement) (rules : List ValidateRule) :
    (runValidation rc elements rules).errors +
      (runValidation rc elements rules).warnings =
      (runValidation rc elements rules).totalIssues ∧
    0 ≤ (runValidation rc elements rules).passed ∧
    (runValidation rc elements rules).passed ≤
      ((runValidation rc elements rules).totalElements : Int) := by
  have hcard := validation_card_le rc elements rules ([], ∅)
  simp only [Finset.card_empty] at hcard
  unfold runValidation
  refine ⟨filter_severity_partition _, ?_, ?_⟩
  · simp only []
    omega
  · simp only []
    omega

/- ===== C9: IDS property-facet conversion ===== -/

/-- C9.  `idsToRulePack` converts every property-facet requirement via
`convPropertyReq` (attribute facets aside): cardinality `required` with
a present (JS-truthy, i.e. non-empty) literal value gives `equals` with
that literal as `expected`; `required` with no literal value but a
present pattern gives `regex` with that pattern; `required` with
neither gives `notEmpty`; `prohibited` gives `exists`. -/
theorem c9_property_requirement_conversion :
    (∀ (req : IDSRequirement) ps pn v pat,
      req.facet = .property ps pn v pat →
      convReq req = some (convPropertyReq ps pn v pat req.cardinality)) ∧
    (∀ ps pn (v pat : Option (List Char)),
      (∀ s, v = some s → s ≠ [] →
        convPropertyReq ps pn v pat .required =
          { psetName := ps, propertyName := pn, checkType := .ckEquals,
            expected := .val (.str s) }) ∧
      (truthy v = false → ∀ p, pat = some p → p ≠ [] →
        convPropertyReq ps pn v pat .required =
          { psetName := ps, propertyName := pn, checkType := .ckRegex,
            pattern := pat }) ∧
      (truthy v = false → truthy pat = false →
        convPropertyReq ps pn v pat .required =
          { psetName := ps, propertyName := pn, checkType := .ckNotEmpty }) ∧
      convPropertyReq ps pn v pat .prohibited =
        { psetName := ps, propertyName := pn, checkType := .ckExists }) := by
  constructor
  · intro req ps pn v pat hf
    unfold convReq
    rw [hf]
  · intro ps pn v pat
    refine ⟨?_, ?_, ?_, rfl⟩
    · intro s hv hs
      subst hv
      have ht : truthy (some s) = true := by
        simp [truthy, List.isEmpty_iff, hs]
      unfold convPropertyReq
      rw [ht]
      simp
    · intro hv p hp hpne
      subst hp
      have ht : truthy (some p) = true := by
        simp [truthy, List.isEmpty_iff, hpne]
      unfold convPropertyReq
      rw [hv, ht]
      simp
    · intro hv hp
      unfold convPropertyReq
      rw [hv, hp]
      simp

/-- C9 witness: the four branches at concrete inputs. -/
theorem c9_witness :
    convPropertyReq (toL "P") (toL "N") (some (toL "X")) none .required =
      { psetName := toL "P", propertyName := toL "N", checkType := .ckEquals,
        expected := .val (.str (toL "X")) } ∧
    convPropertyReq (toL "P") (toL "N") none (some (toL "A.*")) .required =
      { psetName := toL "P", propertyName := toL "N", checkType := .ckRegex,
        pattern := some (toL "A.*") } ∧
    convPropertyReq (toL "P") (toL "N") none none .required =
      { psetName := toL "P", propertyName := toL "N",
        checkType := .ckNotEmpty } ∧
    convPropertyReq (toL "P") (toL "N") (some (toL "X")) none .prohibited =
      { psetName := toL "P", propertyName := toL "N",
        checkType := .ckExists } :=
  ⟨((c9_property_requirement_conversion.2 (toL "P") (toL "N")
      (some (toL "X")) none).1 (toL "X") rfl (by decide)),
   ((c9_property_requirement_conversion.2 (toL "P") (toL "N")
      none (some (toL "A.*"))).2.1 rfl (toL "A.*") rfl (by decide)),
   ((c9_property_requirement_conversion.2 (toL "P") (toL "N")
      none none).2.2.1 rfl rfl),
   ((c9_property_requirement_conversion.2 (toL "P") (toL "N")
      (some (toL "X")) none).2.2.2)⟩

/- ===== C2: header preservation in rewriteExport ===== -/

